import Mathlib

/-!
Verification of the bounded-concurrency ticket fetcher in
`app/services/autotask.py` (`AutotaskService.fetch_tickets_with_details`,
its inner `fetch_ticket_details_limited` and `fetch_with_retry`).

The Python code is shallowly embedded:
* JSON values are the inductive `JVal`; Python dicts are association lists
  (`Dict`) with Python dict-literal update semantics (`dictSet`).
* The upstream HTTP API is an oracle: the ticket-list endpoint is a function
  from the query payload to a page or an error, and the two child-entity
  endpoints answer per attempt number (`HttpResp`), which lets a single
  oracle describe "429 twice, then success".
* `await`-points and HTTP requests are recorded as events (`REv`, `DEv`) so
  that backoff sleeps, request counts and semaphore bracketing are visible.
* The `while True` pagination loop is embedded with explicit fuel; `none`
  means the fuel ran out, `some` is the Python function's outcome
  (normal return, or a propagated exception from a page fetch).
-/

/-- JSON values, as far as this service inspects them. -/
inductive JVal where
  | num (n : Int)
  | str (s : String)
  | list (l : List JVal)
  | null
deriving Repr

/-- A Python dict with string keys, as an association list (first match wins
on lookup, as in `dictGet`). -/
abbrev Dict := List (String × JVal)

/-- `d[k]` lookup: first entry with key `k`. -/
def dictGet (d : Dict) (k : String) : Option JVal :=
  (d.find? (fun p => p.1 = k)).map (·.2)

/-- The dict produced by the Python literal `{**d, k: v}`: if `k` is already a
key of `d` its value is replaced in place, otherwise `(k, v)` is appended. -/
def dictSet (d : Dict) (k : String) (v : JVal) : Dict :=
  if d.any (fun p => p.1 = k) then
    d.map (fun p => if p.1 = k then (k, v) else p)
  else
    d ++ [(k, v)]


/-- A ticket returned by the `Tickets/query` endpoint: a JSON object holding
an externally assigned integer `id` (the code reads `ticket["id"]` and
`tickets[-1]["id"]`) together with its remaining fields. -/
structure Ticket where
  id : Int
  fields : Dict
deriving Repr

instance : Inhabited Ticket := ⟨⟨0, []⟩⟩

/-- The ticket as the raw JSON dict the API returned. -/
def Ticket.toDict (t : Ticket) : Dict :=
  ("id", JVal.num t.id) :: t.fields

/-- One entry of the `Filter` array of a query payload:
`{"field": ..., "op": ..., "value": ...}`. -/
structure FilterItem where
  field : String
  op : String
  value : JVal
deriving Repr

/-- A JSON body POSTed to a `/query` endpoint. The ticket-list call sends
`IncludeFields: []`; the child-entity calls send no such key (`none`). -/
structure QueryPayload where
  maxRecords : Int
  includeFields : Option (List String)
  filter : List FilterItem
deriving Repr

/-- Outcome of one child-entity POST, from the point of view of the
`try`/`except` arms of `fetch_with_retry`: a 2xx response whose body parsed
to `{"items": items}`; an `httpx.HTTPStatusError` raised by
`raise_for_status` carrying the status code; or any other exception
(network failure, JSON decode error, ...). -/
inductive HttpResp where
  | ok (items : List JVal)
  | httpStatus (code : Nat)
  | otherErr (msg : String)
deriving Repr

/-- Awaited effects of one `fetch_with_retry` call: the POST of attempt `a`,
and `asyncio.sleep` of `d` seconds (durations as exact rationals;
`(2 ** attempt) * 1.5` is exact in binary floating point for the attempts
that occur, so nothing is lost). -/
inductive REv where
  | request (a : Nat)
  | sleep (d : ℚ)
deriving Repr

/-- The `for attempt in range(max_retries)` loop of `fetch_with_retry`,
embedded with `fuel = maxRetries - attempt` iterations remaining.
`respond a` is the upstream's answer to the POST of attempt `a`.
Returns the awaited events together with the Python return value:

* 2xx: return the parsed items;
* 429: sleep `(2 ^ attempt) * 1.5` seconds, then return `[]` if this was the
  last attempt, else move to the next attempt;
* any other status, or any other exception: return `[]` at once;
* loop exhausted (only reachable with `maxRetries = 0`): return `[]`. -/
def fetchWithRetryGo (respond : Nat → HttpResp) (maxRetries : Nat) :
    Nat → Nat → List REv × List JVal
  | _, 0 => ([], [])
  | attempt, fuel + 1 =>
    match respond attempt with
    | .ok items => ([.request attempt], items)
    | .httpStatus code =>
      if code = 429 then
        let wait : ℚ := 2 ^ attempt * (3 / 2)
        if attempt = maxRetries - 1 then
          ([.request attempt, .sleep wait], [])
        else
          let r := fetchWithRetryGo respond maxRetries (attempt + 1) fuel
          (.request attempt :: .sleep wait :: r.1, r.2)
      else
        ([.request attempt], [])
    | .otherErr _ => ([.request attempt], [])

/-- `fetch_with_retry(url, payload, entity_type, max_retries)`: the loop
started at attempt 0. The url and payload are fixed over the whole call and
are attached to the events by the caller's embedding. -/
def fetch_with_retry (respond : Nat → HttpResp) (maxRetries : Nat) :
    List REv × List JVal :=
  fetchWithRetryGo respond maxRetries 0 maxRetries

/-- The sleep durations of an event list, in order. -/
def sleepsOf (evs : List REv) : List ℚ :=
  evs.filterMap (fun e => match e with | .sleep d => some d | _ => none)

/-- The attempts of the requests of an event list, in order. -/
def requestsOf (evs : List REv) : List Nat :=
  evs.filterMap (fun e => match e with | .request a => some a | _ => none)

/-- Per-ticket environment: the upstream's answer to the `a`-th POST of the
notes query and of the time-entries query for this ticket, plus an optional
"unexpected exception" injected into the `try` block of
`fetch_ticket_details_limited` (the code's defensive `except Exception`
arm). `interrupt = some n` means the exception is raised after `n` of the
body's awaited events have happened. -/
structure TicketEnv where
  notesResp : Nat → HttpResp
  teResp : Nat → HttpResp
  interrupt : Option Nat

/-- Awaited effects of one `fetch_ticket_details_limited` call: semaphore
acquisition/release (from `async with semaphore`), sleeps, and child-entity
POSTs tagged with their url, JSON payload and attempt number. -/
inductive DEv where
  | acquire
  | sleepEv (d : ℚ)
  | query (url : String) (payload : QueryPayload) (a : Nat)
  | release
deriving Repr

/-- The JSON body of both child-entity queries for ticket `tid`:
`{"MaxRecords": 500, "Filter": [{"field": "ticketID", "op": "eq", "value": tid}]}`. -/
def childPayload (tid : Int) : QueryPayload :=
  ⟨500, none, [⟨"ticketID", "eq", .num tid⟩]⟩

/-- `f"{base_url}/TicketNotes/query"`. -/
def notesUrl (baseUrl : String) : String := baseUrl ++ "/TicketNotes/query"

/-- `f"{base_url}/TimeEntries/query"`. -/
def teUrl (baseUrl : String) : String := baseUrl ++ "/TimeEntries/query"

/-- Tag the events of a `fetch_with_retry` call with its fixed url and
payload. -/
def tagRetryEv (url : String) (p : QueryPayload) : REv → DEv
  | .request a => .query url p a
  | .sleep d => .sleepEv d

/-- The awaited events of the `try` body of `fetch_ticket_details_limited`,
in program order: `asyncio.sleep(0.3)`, the notes `fetch_with_retry`
(max_retries 3), `asyncio.sleep(0.2)`, the time-entries `fetch_with_retry`. -/
def detailBodyEvents (baseUrl : String) (tid : Int) (env : TicketEnv) :
    List DEv :=
  .sleepEv (3 / 10) ::
    (fetch_with_retry env.notesResp 3).1.map
      (tagRetryEv (notesUrl baseUrl) (childPayload tid)) ++
    .sleepEv (1 / 5) ::
    (fetch_with_retry env.teResp 3).1.map
      (tagRetryEv (teUrl baseUrl) (childPayload tid))

/-- `{**ticket, "notes": notes, "time_entries": time_entries}`. -/
def mergeDetails (t : Ticket) (notes te : List JVal) : Dict :=
  dictSet (dictSet t.toDict "notes" (.list notes)) "time_entries" (.list te)

/-- `fetch_ticket_details_limited(ticket)`: under the semaphore, run the
`try` body and return the merged record; the defensive `except Exception`
arm returns the ticket with empty `notes`/`time_entries` instead. Returns
the awaited events together with the returned dict. Interruption truncates
the body's events; `async with` still releases the semaphore on that path. -/
def fetch_ticket_details_limited (baseUrl : String) (env : TicketEnv)
    (ticket : Ticket) : List DEv × Dict :=
  let body := detailBodyEvents baseUrl ticket.id env
  match env.interrupt with
  | none =>
    (.acquire :: body ++ [.release],
      mergeDetails ticket (fetch_with_retry env.notesResp 3).2
        (fetch_with_retry env.teResp 3).2)
  | some n =>
    (.acquire :: body.take n ++ [.release], mergeDetails ticket [] [])

/-- An exception that aborts a ticket-list page fetch: the `httpx.HTTPError`
raised by a network failure or by `raise_for_status` on a non-2xx
response (both `except` arms of the page fetch re-`raise`). -/
inductive PageErr where
  | httpStatus (code : Nat)
  | network (msg : String)
deriving Repr, DecidableEq

/-- The whole upstream, for one run: the `Tickets/query` endpoint as a
function of the POSTed payload, and the per-ticket child-entity
environment, keyed by the ticket id used in the child queries. -/
structure RunEnv where
  tickets : QueryPayload → Except PageErr (List Ticket)
  detail : Int → TicketEnv

/-- The enriched record the run accumulates for one ticket. -/
def enrichTicket (baseUrl : String) (env : RunEnv) (t : Ticket) : Dict :=
  (fetch_ticket_details_limited baseUrl (env.detail t.id) t).2

/-- The `filter_params` list built at cursor `cursor`: createDate ≥ start,
createDate ≤ end, id > cursor, and — only when `company_id` is truthy
(present and nonzero, Python `if company_id:`) — companyID = company. -/
def ticketFilter (startIso endIso : String) (company : Option Int)
    (cursor : Int) : List FilterItem :=
  let base : List FilterItem :=
    [⟨"createDate", "gte", .str startIso⟩,
     ⟨"createDate", "lte", .str endIso⟩,
     ⟨"id", "gt", .num cursor⟩]
  match company with
  | some c => if c ≠ 0 then base ++ [⟨"companyID", "eq", .num c⟩] else base
  | none => base

/-- The JSON body POSTed to `Tickets/query` at cursor `cursor`. -/
def ticketsPayload (maxT : Nat) (startIso endIso : String)
    (company : Option Int) (cursor : Int) : QueryPayload :=
  ⟨maxT, some [], ticketFilter startIso endIso company cursor⟩

/-- `tickets[-1]["id"]` (only used on nonempty pages). -/
def lastId (l : List Ticket) : Int := (l.getLastD default).id

/-- One processed (nonempty) page, recorded for specification purposes:
the cursor the page was requested at, the page itself, and the cursor value
after the `last_ticket_id = tickets[-1]["id"]` update. -/
structure PageRec where
  cursorBefore : Int
  page : List Ticket
  cursorAfter : Int
deriving Repr

/-- The `while True` pagination loop of `fetch_tickets_with_details`,
with explicit fuel (`none` = fuel exhausted; the real loop has none).
`acc` is `all_tickets_with_details`, `cursor` is `last_ticket_id`; `pacc`
records the processed pages and does not influence control flow. Each
iteration: POST `Tickets/query` (an `httpx` error propagates — both
`except` arms re-raise); an empty page breaks; otherwise every ticket of
the page is enriched (the final list order is page order: `asyncio.gather`
preserves argument order), the cursor moves to the last id of the page, and
a page shorter than `max_tickets` breaks. -/
def fetchLoop (baseUrl : String) (env : RunEnv) (startIso endIso : String)
    (company : Option Int) (maxT : Nat) :
    Nat → Int → List Dict → List PageRec →
    Option (Except PageErr (List PageRec × List Dict))
  | 0, _, _, _ => none
  | fuel + 1, cursor, acc, pacc =>
    match env.tickets (ticketsPayload maxT startIso endIso company cursor) with
    | .error e => some (.error e)
    | .ok tickets =>
      match tickets with
      | [] => some (.ok (pacc, acc))
      | t :: ts =>
        let acc' := acc ++ (t :: ts).map (enrichTicket baseUrl env)
        let cursor' := lastId (t :: ts)
        let pacc' := pacc ++ [⟨cursor, t :: ts, cursor'⟩]
        if (t :: ts).length < maxT then some (.ok (pacc', acc'))
        else fetchLoop baseUrl env startIso endIso company maxT
          fuel cursor' acc' pacc'

/-- Python `x or default` on an optional integer argument: `None` and `0`
are falsy. -/
def pyOrDefault (v : Option Nat) (d : Nat) : Nat :=
  match v with
  | none => d
  | some n => if n = 0 then d else n

/-- `fetch_tickets_with_details(start, end, company_id, max_tickets,
concurrent_limit)`: resolve the page-size default
(`settings.max_tickets_per_request = 500`) and run the pagination loop from
`last_ticket_id = 0` with empty accumulators. (`concurrent_limit` only
sizes the semaphore; the interleaving it gates is modelled separately by
`SemStep`.) -/
def fetch_tickets_with_details (baseUrl : String) (env : RunEnv)
    (startIso endIso : String) (company : Option Int)
    (maxTicketsArg : Option Nat) (fuel : Nat) :
    Option (Except PageErr (List PageRec × List Dict)) :=
  fetchLoop baseUrl env startIso endIso company
    (pyOrDefault maxTicketsArg 500) fuel 0 [] []

/-- State of the page-wide fan-out: how many detail fetches currently hold a
semaphore slot, and the remaining events of every spawned task. -/
structure SemState where
  holders : Nat
  tasks : List (List DEv)

/-- Effect of one awaited event on the number of held slots. -/
def stepHolders (holders : Nat) : DEv → Nat
  | .acquire => holders + 1
  | .release => holders - 1
  | _ => holders

/-- One scheduling step of the cooperative (`asyncio`) interleaving: some
task performs its next event. `asyncio.Semaphore(N)` blocks `acquire` while
`N` slots are held, so an `acquire` step is only enabled when
`holders < N`. -/
inductive SemStep (N : Nat) : SemState → SemState → Prop
  | step (i : Nat) (e : DEv) (rest : List DEv) (s : SemState)
      (htask : s.tasks.get? i = some (e :: rest))
      (hacq : e = DEv.acquire → s.holders < N) :
      SemStep N s ⟨stepHolders s.holders e, s.tasks.set i rest⟩

/-- The urls and payloads of the requests of an event list, in order. -/
def queryLog (evs : List DEv) : List (String × QueryPayload) :=
  evs.filterMap
    (fun e => match e with | .query u p _ => some (u, p) | _ => none)

/-- The chain of pages one run processes, starting from cursor `c`: every
recorded page was the (nonempty) answer of the ticket-list endpoint to the
payload built at the running cursor, and after it the cursor moved to the
page's last id. -/
def PagesChain (env : RunEnv) (startIso endIso : String)
    (company : Option Int) (maxT : Nat) : Int → List PageRec → Prop
  | _, [] => True
  | c, pr :: rest =>
    pr.cursorBefore = c ∧ pr.page ≠ [] ∧
    env.tickets (ticketsPayload maxT startIso endIso company c) = .ok pr.page ∧
    pr.cursorAfter = lastId pr.page ∧
    PagesChain env startIso endIso company maxT pr.cursorAfter rest


/-- Concrete data for closed instantiations: a ticket with id `i` and one
free-text field. -/
def witTicket (i : Int) : Ticket := ⟨i, [("title", .str "t")]⟩

/-- Read the `id > cursor` filter value back out of a ticket-list payload. -/
def witCursor (p : QueryPayload) : Int :=
  match p.filter with
  | [_, _, ⟨_, _, .num c⟩] => c
  | _ => 0

/-- A tiny upstream id-space: tickets 1, 2, 3, served in ascending order
above the requested cursor, at most two per page. -/
def witPages (c : Int) : List Ticket :=
  if c < 1 then [witTicket 1, witTicket 2]
  else if c < 3 then [witTicket 3]
  else []

/-- Child-entity endpoints that always answer an empty 2xx collection. -/
def witDetailOk : TicketEnv := ⟨fun _ => .ok [], fun _ => .ok [], none⟩

/-- A fully healthy concrete environment. -/
def witEnv : RunEnv :=
  ⟨fun p => .ok (witPages (witCursor p)), fun _ => witDetailOk⟩

/-- One page of one ticket whose detail fetch raises an unexpected
exception. -/
def witEnvInt : RunEnv :=
  ⟨fun p => .ok (if witCursor p < 1 then [witTicket 1] else []),
   fun _ => ⟨fun _ => .ok [], fun _ => .ok [], some 0⟩⟩

/-- A ticket-list endpoint that always fails with HTTP 500. -/
def witEnvErr : RunEnv :=
  ⟨fun _ => .error (.httpStatus 500), fun _ => witDetailOk⟩

theorem dictGet_dictSet_same (d : Dict) (k : String) (v : JVal) :
    dictGet (dictSet d k v) k = some v := by
  unfold dictGet dictSet
  by_cases hany : d.any (fun p => decide (p.1 = k)) = true
  · rw [if_pos hany, List.find?_map]
    have hpred : ((fun p : String × JVal => decide (p.1 = k)) ∘
        (fun p => if p.1 = k then (k, v) else p)) =
        (fun p : String × JVal => decide (p.1 = k)) := by
      funext p
      by_cases hp : p.1 = k <;> simp [hp]
    rw [hpred]
    have hsome : (d.find? (fun p => decide (p.1 = k))).isSome := by
      rw [List.find?_isSome]
      simpa using hany
    obtain ⟨q, hq⟩ := Option.isSome_iff_exists.mp hsome
    have hqk : q.1 = k := by simpa using List.find?_some hq
    rw [hq]
    simp [hqk]
  · rw [if_neg hany, List.find?_append]
    have hnone : d.find? (fun p => decide (p.1 = k)) = none := by
      rw [List.find?_eq_none]
      intro p hp hpk
      exact hany (List.any_eq_true.mpr ⟨p, hp, hpk⟩)
    rw [hnone]
    simp

theorem dictGet_dictSet_other (d : Dict) (k k' : String) (v : JVal)
    (hne : k' ≠ k) : dictGet (dictSet d k v) k' = dictGet d k' := by
  unfold dictGet dictSet
  by_cases hany : d.any (fun p => decide (p.1 = k)) = true
  · rw [if_pos hany, List.find?_map]
    have hpred : ((fun p : String × JVal => decide (p.1 = k')) ∘
        (fun p => if p.1 = k then (k, v) else p)) =
        (fun p : String × JVal => decide (p.1 = k')) := by
      funext p
      by_cases hp : p.1 = k <;> simp [hp, Ne.symm hne]
    rw [hpred]
    rcases hfind : d.find? (fun p => decide (p.1 = k')) with _ | q
    · rw [hfind]
      simp
    · have hqk' : q.1 = k' := by simpa using List.find?_some hfind
      have hqk : ¬ q.1 = k := fun h => hne (hqk' ▸ h)
      rw [hfind]
      simp [hqk]
  · rw [if_neg hany, List.find?_append]
    have : ([((k : String), v)].find? (fun p => decide (p.1 = k'))) = none := by
      simp [Ne.symm hne]
    rw [this]
    simp

theorem semStep_holders_le {N : Nat} {s s' : SemState} (h : SemStep N s s')
    (hle : s.holders ≤ N) : s'.holders ≤ N := by
  cases h with
  | step i e rest s htask hacq =>
    cases e with
    | acquire =>
      have := hacq rfl
      simp only [stepHolders]
      omega
    | release =>
      simp only [stepHolders]
      omega
    | sleepEv d => simpa only [stepHolders] using hle
    | query u p a => simpa only [stepHolders] using hle

theorem reachable_holders_le {N : Nat} {s s' : SemState}
    (h : Relation.ReflTransGen (SemStep N) s s') (hle : s.holders ≤ N) :
    s'.holders ≤ N := by
  induction h with
  | refl => exact hle
  | tail _ hstep ih => exact semStep_holders_le hstep ih

theorem tagRetryEv_ne_acquire_release (url : String) (p : QueryPayload)
    (r : REv) :
    tagRetryEv url p r ≠ DEv.acquire ∧ tagRetryEv url p r ≠ DEv.release := by
  cases r <;> simp [tagRetryEv]

/-- The body of a detail fetch never touches the semaphore: all acquire /
release traffic is the single bracket added by `async with semaphore`. -/
theorem detailBodyEvents_no_sem (baseUrl : String) (tid : Int)
    (env : TicketEnv) :
    ∀ e ∈ detailBodyEvents baseUrl tid env,
      e ≠ DEv.acquire ∧ e ≠ DEv.release := by
  intro e he
  unfold detailBodyEvents at he
  rcases List.mem_cons.mp he with rfl | he
  · simp
  rcases List.mem_append.mp he with he | he
  · obtain ⟨r, _, rfl⟩ := List.mem_map.mp he
    exact tagRetryEv_ne_acquire_release _ _ r
  rcases List.mem_cons.mp he with rfl | he
  · simp
  obtain ⟨r, _, rfl⟩ := List.mem_map.mp he
  exact tagRetryEv_ne_acquire_release _ _ r

/-- Every exit path of `fetch_ticket_details_limited` produces a
well-bracketed trace: the semaphore slot is acquired first — before any
child-entity request — and released as the last event, with no other
semaphore traffic in between. -/
theorem detail_trace_bracketed (baseUrl : String) (env : TicketEnv)
    (t : Ticket) :
    ∃ mid, (fetch_ticket_details_limited baseUrl env t).1 =
        DEv.acquire :: (mid ++ [DEv.release]) ∧
      ∀ e ∈ mid, e ≠ DEv.acquire ∧ e ≠ DEv.release := by
  unfold fetch_ticket_details_limited
  cases hint : env.interrupt with
  | none =>
    refine ⟨detailBodyEvents baseUrl t.id env, by simp, ?_⟩
    exact detailBodyEvents_no_sem baseUrl t.id env
  | some n =>
    refine ⟨(detailBodyEvents baseUrl t.id env).take n, by simp, ?_⟩
    intro e he
    exact detailBodyEvents_no_sem baseUrl t.id env e (List.mem_of_mem_take he)


theorem queryLog_map_tag (url : String) (p : QueryPayload) (evs : List REv) :
    queryLog (evs.map (tagRetryEv url p)) =
      List.replicate (requestsOf evs).length (url, p) := by
  induction evs with
  | nil => rfl
  | cons r evs ih =>
    cases r with
    | request a =>
      simp [queryLog, requestsOf, tagRetryEv, List.replicate] at ih ⊢
      exact ih
    | sleep d =>
      simp [queryLog, requestsOf, tagRetryEv] at ih ⊢
      exact ih

/-- Each iteration of the retry loop issues exactly one POST, so a call with
`fuel ≥ 1` iterations available issues between 1 and `fuel` POSTs. -/
theorem requestsOf_go_len (respond : Nat → HttpResp) (m : Nat) :
    ∀ fuel a, 1 ≤ fuel →
      1 ≤ (requestsOf (fetchWithRetryGo respond m a fuel).1).length ∧
      (requestsOf (fetchWithRetryGo respond m a fuel).1).length ≤ fuel := by
  intro fuel
  induction fuel with
  | zero => intro a h; omega
  | succ fuel ih =>
    intro a _
    cases hr : respond a with
    | ok items => simp [fetchWithRetryGo, hr, requestsOf]
    | httpStatus code =>
      by_cases h429 : code = 429
      · by_cases hlast : a = m - 1
        · subst h429
          subst hlast
          simp [fetchWithRetryGo, hr, requestsOf]
        · rcases Nat.eq_zero_or_pos fuel with hf0 | hf
          · subst hf0
            simp [fetchWithRetryGo, hr, h429, hlast, requestsOf]
          · have hih := ih (a + 1) hf
            simp only [requestsOf] at hih
            simp [fetchWithRetryGo, hr, h429, hlast, requestsOf]
            omega
      · simp [fetchWithRetryGo, hr, h429, requestsOf]
    | otherErr msg => simp [fetchWithRetryGo, hr, requestsOf]

/-- The value a retry loop returns is either `[]` or the parsed items of a
2xx response of the upstream. -/
theorem go_result_cases (respond : Nat → HttpResp) (m : Nat) :
    ∀ fuel a, (fetchWithRetryGo respond m a fuel).2 = [] ∨
      ∃ b items, respond b = .ok items ∧
        (fetchWithRetryGo respond m a fuel).2 = items := by
  intro fuel
  induction fuel with
  | zero => intro a; left; rfl
  | succ fuel ih =>
    intro a
    cases hr : respond a with
    | ok items =>
      refine Or.inr ⟨a, items, hr, ?_⟩
      simp [fetchWithRetryGo, hr]
    | httpStatus code =>
      by_cases h429 : code = 429
      · by_cases hlast : a = m - 1
        · left
          subst h429
          subst hlast
          simp [fetchWithRetryGo, hr]
        · simpa [fetchWithRetryGo, hr, h429, hlast] using ih (a + 1)
      · left
        simp [fetchWithRetryGo, hr, h429]
    | otherErr msg =>
      left
      simp [fetchWithRetryGo, hr]

/-- Key structure of the record `{**ticket, "notes": notes,
"time_entries": time_entries}`: the two child keys hold exactly the fetched
collections and every other key is looked up as in the original ticket. -/
theorem mergeDetails_keys (t : Ticket) (notes te : List JVal) :
    dictGet (mergeDetails t notes te) "notes" = some (.list notes) ∧
    dictGet (mergeDetails t notes te) "time_entries" = some (.list te) ∧
    ∀ k, k ≠ "notes" → k ≠ "time_entries" →
      dictGet (mergeDetails t notes te) k = dictGet t.toDict k := by
  unfold mergeDetails
  refine ⟨?_, dictGet_dictSet_same _ _ _, ?_⟩
  · rw [dictGet_dictSet_other _ _ _ _ (by decide)]
    exact dictGet_dictSet_same _ _ _
  · intro k hk1 hk2
    rw [dictGet_dictSet_other _ _ _ _ hk2, dictGet_dictSet_other _ _ _ _ hk1]

theorem lastId_cons_cons (x y : Ticket) (l : List Ticket) :
    lastId (x :: y :: l) = lastId (y :: l) := by
  simp [lastId, List.getLastD_cons]

theorem lastId_mem (l : List Ticket) : l ≠ [] → lastId l ∈ l.map (·.id) := by
  induction l with
  | nil => simp
  | cons x l ih =>
    intro _
    cases l with
    | nil => simp [lastId, List.getLastD]
    | cons y l' =>
      rw [lastId_cons_cons]
      simp only [List.map_cons, List.mem_cons]
      right
      simpa using ih (by simp)

theorem le_lastId (l : List Ticket)
    (hs : (l.map (·.id)).Pairwise (· < ·)) :
    ∀ t ∈ l, t.id ≤ lastId l := by
  induction l with
  | nil => simp
  | cons x l ih =>
    intro t ht
    cases l with
    | nil =>
      rcases List.mem_singleton.mp ht with rfl
      simp [lastId, List.getLastD]
    | cons y l' =>
      rw [lastId_cons_cons]
      rcases List.mem_cons.mp ht with rfl | ht'
      · have hpc := List.pairwise_cons.mp hs
        have hmem := lastId_mem (y :: l') (by simp)
        exact le_of_lt (hpc.1 _ hmem)
      · exact ih (List.pairwise_cons.mp hs).2 t ht'


/-- Soundness of the pagination loop: a normal return extends the recorded
pages by a chain starting at the current cursor, and the returned list is
the accumulator followed by the enriched pages, page by page in upstream
order, each page in upstream order. -/
theorem fetchLoop_sound (baseUrl : String) (env : RunEnv)
    (startIso endIso : String) (company : Option Int) (maxT : Nat) :
    ∀ fuel cursor acc pacc pages out,
      fetchLoop baseUrl env startIso endIso company maxT fuel cursor acc pacc
        = some (.ok (pages, out)) →
      ∃ newPages, pages = pacc ++ newPages ∧
        out = acc ++
          (newPages.map
            (fun pr => pr.page.map (enrichTicket baseUrl env))).flatten ∧
        PagesChain env startIso endIso company maxT cursor newPages := by
  intro fuel
  induction fuel with
  | zero =>
    intro cursor acc pacc pages out h
    simp [fetchLoop] at h
  | succ fuel ih =>
    intro cursor acc pacc pages out h
    simp only [fetchLoop] at h
    split at h
    · exact absurd h (by simp)
    · rename_i tickets hE
      split at h
      · obtain ⟨rfl, rfl⟩ : pacc = pages ∧ acc = out := by simpa using h
        exact ⟨[], by simp, by simp, trivial⟩
      · rename_i t ts
        split at h
        · obtain ⟨h1, h2⟩ :
              pacc ++ [⟨cursor, t :: ts, lastId (t :: ts)⟩] = pages ∧
              acc ++ (t :: ts).map (enrichTicket baseUrl env) = out := by
            simpa using h
          refine ⟨[⟨cursor, t :: ts, lastId (t :: ts)⟩], by simp [h1], ?_, ?_⟩
          · simp [← h2]
          · exact ⟨rfl, by simp, hE, rfl, trivial⟩
        · obtain ⟨newPages', hpages, hout, hchain⟩ := ih _ _ _ _ _ h
          refine ⟨⟨cursor, t :: ts, lastId (t :: ts)⟩ :: newPages', ?_, ?_, ?_⟩
          · simp [hpages]
          · simp [hout]
          · exact ⟨rfl, by simp, hE, rfl, hchain⟩

/-- Consequences of a page chain when the upstream honours the
`id > cursor` filter (`HFilter`) and returns pages in ascending id order
(`HSorted`): each page's recorded `cursorAfter` is the maximum id of the
page, all ids sit strictly above the chain's starting cursor, the
`cursorAfter` values strictly increase, and ids of distinct pages are
strictly ordered (hence disjoint). -/
theorem pagesChain_strong (env : RunEnv) (startIso endIso : String)
    (company : Option Int) (maxT : Nat)
    (HFilter : ∀ c page,
      env.tickets (ticketsPayload maxT startIso endIso company c) = .ok page →
      ∀ t ∈ page, c < t.id)
    (HSorted : ∀ c page,
      env.tickets (ticketsPayload maxT startIso endIso company c) = .ok page →
      (page.map (·.id)).Pairwise (· < ·)) :
    ∀ ps c, PagesChain env startIso endIso company maxT c ps →
      (∀ pr ∈ ps, pr.cursorAfter ∈ pr.page.map (·.id) ∧
        (∀ t ∈ pr.page, t.id ≤ pr.cursorAfter) ∧
        (∀ t ∈ pr.page, c < t.id)) ∧
      (ps.map (·.cursorAfter)).Pairwise (· < ·) ∧
      ps.Pairwise (fun p q => ∀ t ∈ p.page, ∀ u ∈ q.page, t.id < u.id) := by
  intro ps
  induction ps with
  | nil => intro c _; exact ⟨by simp, by simp, by simp⟩
  | cons pr rest ih =>
    intro c hchain
    obtain ⟨hcb, hne, hE, hca, hrest⟩ := hchain
    have hfil := HFilter c pr.page hE
    have hsort := HSorted c pr.page hE
    have hmax : ∀ t ∈ pr.page, t.id ≤ pr.cursorAfter := by
      rw [hca]; exact le_lastId pr.page hsort
    have hmem : pr.cursorAfter ∈ pr.page.map (·.id) := by
      rw [hca]; exact lastId_mem pr.page hne
    have hcc : c < pr.cursorAfter := by
      obtain ⟨t, ht, hid⟩ := List.mem_map.mp hmem
      rw [← hid]; exact hfil t ht
    obtain ⟨ihA, ihB, ihC⟩ := ih pr.cursorAfter hrest
    refine ⟨?_, ?_, ?_⟩
    · intro pr' hpr'
      rcases List.mem_cons.mp hpr' with rfl | hpr'
      · exact ⟨hmem, hmax, hfil⟩
      · obtain ⟨h1, h2, h3⟩ := ihA pr' hpr'
        exact ⟨h1, h2, fun t ht => lt_trans hcc (h3 t ht)⟩
    · rw [List.map_cons]
      refine List.pairwise_cons.mpr ⟨?_, ihB⟩
      intro b hb
      obtain ⟨pr', hpr', rfl⟩ := List.mem_map.mp hb
      obtain ⟨h1, _, h3⟩ := ihA pr' hpr'
      obtain ⟨u, hu, hid⟩ := List.mem_map.mp h1
      rw [← hid]
      exact h3 u hu
    · refine List.pairwise_cons.mpr ⟨?_, ihC⟩
      intro pr' hpr' t ht u hu
      exact lt_of_le_of_lt (hmax t ht) ((ihA pr' hpr').2.2 u hu)

/-- C1: in every successful run whose upstream honours the `id > cursor`
filter and returns each page in ascending id order (the spec's standing
assumption), the cursor recorded after processing a page is the maximum id
occurring in that page, the cursor strictly increases across pages, and no
ticket id occurs in two different pages of the run. -/
theorem c1_cursor_is_page_max (baseUrl : String) (env : RunEnv)
    (startIso endIso : String) (company : Option Int)
    (maxTicketsArg : Option Nat) (maxT fuel : Nat)
    (pages : List PageRec) (out : List Dict)
    (hmt : maxT = pyOrDefault maxTicketsArg 500)
    (HFilter : ∀ c page,
      env.tickets (ticketsPayload maxT startIso endIso company c) = .ok page →
      ∀ t ∈ page, c < t.id)
    (HSorted : ∀ c page,
      env.tickets (ticketsPayload maxT startIso endIso company c) = .ok page →
      (page.map (·.id)).Pairwise (· < ·))
    (hrun : fetch_tickets_with_details baseUrl env startIso endIso company
      maxTicketsArg fuel = some (.ok (pages, out))) :
    (∀ pr ∈ pages, pr.cursorAfter ∈ pr.page.map (·.id) ∧
      ∀ t ∈ pr.page, t.id ≤ pr.cursorAfter) ∧
    (pages.map (·.cursorAfter)).Pairwise (· < ·) ∧
    pages.Pairwise (fun p q => ∀ t ∈ p.page, ∀ u ∈ q.page, t.id ≠ u.id) := by
  subst hmt
  unfold fetch_tickets_with_details at hrun
  obtain ⟨newPages, hpages, hout, hchain⟩ :=
    fetchLoop_sound baseUrl env startIso endIso company _ fuel 0 [] []
      pages out hrun
  simp only [List.nil_append] at hpages
  subst hpages
  obtain ⟨hA, hB, hC⟩ :=
    pagesChain_strong env startIso endIso company _ HFilter HSorted
      _ 0 hchain
  refine ⟨fun pr h => ⟨(hA pr h).1, (hA pr h).2.1⟩, hB, ?_⟩
  exact hC.imp (fun h t ht u hu => ne_of_lt (h t ht u hu))

theorem witEnv_honest_filter : ∀ c page,
    witEnv.tickets (ticketsPayload 2 "s" "e" none c) = .ok page →
    ∀ t ∈ page, c < t.id := by
  intro c page hp t ht
  have hpage : witPages c = page := by
    simpa [witEnv, ticketsPayload, ticketFilter, witCursor] using hp
  rw [← hpage] at ht
  unfold witPages at ht
  split_ifs at ht with h1 h2
  · simp only [List.mem_cons, List.not_mem_nil, or_false] at ht
    rcases ht with rfl | rfl
    · show c < (witTicket 1).id
      simp only [witTicket]
      omega
    · show c < (witTicket 2).id
      simp only [witTicket]
      omega
  · simp only [List.mem_cons, List.not_mem_nil, or_false] at ht
    rcases ht with rfl
    show c < (witTicket 3).id
    simp only [witTicket]
    omega
  · simp at ht

theorem witEnv_sorted : ∀ c page,
    witEnv.tickets (ticketsPayload 2 "s" "e" none c) = .ok page →
    (page.map (·.id)).Pairwise (· < ·) := by
  intro c page hp
  have hpage : witPages c = page := by
    simpa [witEnv, ticketsPayload, ticketFilter, witCursor] using hp
  rw [← hpage]
  unfold witPages
  split_ifs with h1 h2
  · simp [witTicket, List.pairwise_cons]
  · simp [witTicket]
  · simp

/-- Witness for C1, on a concrete healthy two-page run over ids 1, 2, 3. -/
theorem c1_cursor_is_page_max_witness :
    (∀ pr ∈ [(⟨0, [witTicket 1, witTicket 2], 2⟩ : PageRec),
             ⟨2, [witTicket 3], 3⟩],
      pr.cursorAfter ∈ pr.page.map (·.id) ∧
      ∀ t ∈ pr.page, t.id ≤ pr.cursorAfter) ∧
    (([(⟨0, [witTicket 1, witTicket 2], 2⟩ : PageRec),
       ⟨2, [witTicket 3], 3⟩].map (·.cursorAfter)).Pairwise (· < ·)) ∧
    ([(⟨0, [witTicket 1, witTicket 2], 2⟩ : PageRec),
      ⟨2, [witTicket 3], 3⟩].Pairwise
        (fun p q => ∀ t ∈ p.page, ∀ u ∈ q.page, t.id ≠ u.id)) :=
  c1_cursor_is_page_max "b" witEnv "s" "e" none (some 2) 2 3
    [⟨0, [witTicket 1, witTicket 2], 2⟩, ⟨2, [witTicket 3], 3⟩]
    [enrichTicket "b" witEnv (witTicket 1),
     enrichTicket "b" witEnv (witTicket 2),
     enrichTicket "b" witEnv (witTicket 3)]
    rfl witEnv_honest_filter witEnv_sorted rfl

/-- C8: a failed ticket-list page fetch (network error or non-2xx status,
i.e. any `httpx.HTTPError`) aborts the whole run — the loop returns that
error and no list — and, conversely, a run can only abort with an error
coming from a page fetch: child-entity environments (which never raise out
of the detail fetcher) cannot produce an error outcome. -/
theorem c8_page_error_propagates (baseUrl : String) (env : RunEnv)
    (startIso endIso : String) (company : Option Int) (maxT : Nat) :
    (∀ fuel cursor acc pacc e,
      env.tickets (ticketsPayload maxT startIso endIso company cursor)
        = .error e →
      fetchLoop baseUrl env startIso endIso company maxT (fuel + 1)
        cursor acc pacc = some (.error e)) ∧
    (∀ fuel cursor acc pacc e,
      fetchLoop baseUrl env startIso endIso company maxT fuel cursor acc pacc
        = some (.error e) →
      ∃ c, env.tickets (ticketsPayload maxT startIso endIso company c)
        = .error e) := by
  constructor
  · intro fuel cursor acc pacc e hE
    simp [fetchLoop, hE]
  · intro fuel
    induction fuel with
    | zero =>
      intro cursor acc pacc e h
      simp [fetchLoop] at h
    | succ fuel ih =>
      intro cursor acc pacc e h
      simp only [fetchLoop] at h
      split at h
      · rename_i e' hE
        obtain rfl : e' = e := by simpa using h
        exact ⟨cursor, hE⟩
      · rename_i tickets hE
        split at h
        · simp at h
        · split at h
          · simp at h
          · exact ih _ _ _ _ h

/-- Witness for C8: with an upstream whose ticket-list endpoint answers
HTTP 500, the run returns exactly that error. -/
theorem c8_page_error_propagates_witness :
    fetchLoop "b" witEnvErr "s" "e" none 2 (0 + 1) 0 [] []
      = some (.error (.httpStatus 500)) :=
  (c8_page_error_propagates "b" witEnvErr "s" "e" none 2).1 0 0 [] []
    (.httpStatus 500) rfl

/-- C5: the pagination loop terminates. A page shorter than the configured
cap — including an empty page — ends the loop immediately (the outcome no
longer depends on the remaining fuel and is a normal return), and when the
upstream honours the `id > cursor` filter over a finite id-space bounded by
`B`, any fuel above `B - cursor` suffices for the loop to finish. -/
theorem c5_pagination_terminates (baseUrl : String) (env : RunEnv)
    (startIso endIso : String) (company : Option Int) (maxT : Nat) (B : Int) :
    (∀ fuel fuel' cursor acc pacc page,
      env.tickets (ticketsPayload maxT startIso endIso company cursor)
        = .ok page →
      page.length < maxT →
      fetchLoop baseUrl env startIso endIso company maxT (fuel + 1)
          cursor acc pacc
        = fetchLoop baseUrl env startIso endIso company maxT (fuel' + 1)
          cursor acc pacc ∧
      ∃ pages out,
        fetchLoop baseUrl env startIso endIso company maxT (fuel + 1)
          cursor acc pacc = some (.ok (pages, out))) ∧
    ((∀ c page,
        env.tickets (ticketsPayload maxT startIso endIso company c)
          = .ok page →
        ∀ t ∈ page, c < t.id ∧ t.id ≤ B) →
      ∀ fuel cursor acc pacc, (B - cursor).toNat < fuel →
        fetchLoop baseUrl env startIso endIso company maxT fuel cursor acc pacc
          ≠ none) := by
  constructor
  · intro fuel fuel' cursor acc pacc page hE hlen
    cases page with
    | nil =>
      exact ⟨by simp [fetchLoop, hE], pacc, acc, by simp [fetchLoop, hE]⟩
    | cons t ts =>
      have hlen' : ts.length + 1 < maxT := by simpa using hlen
      refine ⟨by simp [fetchLoop, hE, hlen'], pacc ++ [⟨cursor, t :: ts,
        lastId (t :: ts)⟩], acc ++ (t :: ts).map (enrichTicket baseUrl env),
        by simp [fetchLoop, hE, hlen']⟩
  · intro HB fuel
    induction fuel with
    | zero =>
      intro cursor acc pacc hf
      omega
    | succ fuel ih =>
      intro cursor acc pacc hf h
      simp only [fetchLoop] at h
      split at h
      · simp at h
      · rename_i tickets hE
        split at h
        · simp at h
        · rename_i t ts
          split at h
          · simp at h
          · have hmem := lastId_mem (t :: ts) (by simp)
            obtain ⟨u, hu, hid⟩ := List.mem_map.mp hmem
            have hub := HB cursor (t :: ts) hE u hu
            have hcur : cursor < lastId (t :: ts) ∧ lastId (t :: ts) ≤ B := by
              rw [← hid]; exact hub
            exact ih (lastId (t :: ts)) _ _ (by omega) h

theorem witEnv_honest_bounded : ∀ c page,
    witEnv.tickets (ticketsPayload 2 "s" "e" none c) = .ok page →
    ∀ t ∈ page, c < t.id ∧ t.id ≤ 3 := by
  intro c page hp t ht
  have hpage : witPages c = page := by
    simpa [witEnv, ticketsPayload, ticketFilter, witCursor] using hp
  rw [← hpage] at ht
  unfold witPages at ht
  split_ifs at ht with h1 h2
  · simp only [List.mem_cons, List.not_mem_nil, or_false] at ht
    rcases ht with rfl | rfl
    · constructor <;> (simp only [witTicket]; omega)
    · constructor <;> (simp only [witTicket]; omega)
  · simp only [List.mem_cons, List.not_mem_nil, or_false] at ht
    rcases ht with rfl
    constructor <;> (simp only [witTicket]; omega)
  · simp at ht

/-- Witness for C5: the concrete healthy run finishes with fuel 4 over the
3-ticket id-space, and at cursor 2 the short page `[witTicket 3]` ends the
loop regardless of remaining fuel. -/
theorem c5_pagination_terminates_witness :
    fetchLoop "b" witEnv "s" "e" none 2 4 0 [] [] ≠ none ∧
    fetchLoop "b" witEnv "s" "e" none 2 (0 + 1) 2 [] []
      = fetchLoop "b" witEnv "s" "e" none 2 (5 + 1) 2 [] [] :=
  ⟨(c5_pagination_terminates "b" witEnv "s" "e" none 2 3).2
      witEnv_honest_bounded 4 0 [] [] (by decide),
   ((c5_pagination_terminates "b" witEnv "s" "e" none 2 3).1 0 5 2 [] []
      [witTicket 3] rfl (by decide)).1⟩

theorem pagesChain_mem (env : RunEnv) (startIso endIso : String)
    (company : Option Int) (maxT : Nat) :
    ∀ ps c, PagesChain env startIso endIso company maxT c ps →
      ∀ pr ∈ ps,
        env.tickets
            (ticketsPayload maxT startIso endIso company pr.cursorBefore)
          = .ok pr.page := by
  intro ps
  induction ps with
  | nil => intro c _ pr hpr; simp at hpr
  | cons q rest ih =>
    intro c hchain pr hpr
    obtain ⟨hcb, _, hE, _, hrest⟩ := hchain
    rcases List.mem_cons.mp hpr with rfl | hpr
    · rw [hcb]; exact hE
    · exact ih q.cursorAfter hrest pr hpr

/-- C9: in a run with no page-fetch failure, the returned list is exactly
the concatenation of the upstream's pages in upstream order (page order and
intra-page order — `asyncio.gather` preserves argument order); every
enriched record holds the fetched `notes` and `time_entries` collections
under those two keys and answers every other key lookup exactly as the
original ticket dict; and under the spec's upstream assumptions the ids of
the returned records are strictly increasing, so each fetched ticket
appears exactly once. -/
theorem c9_output_is_ordered_concat (baseUrl : String) (env : RunEnv)
    (startIso endIso : String) (company : Option Int)
    (maxTicketsArg : Option Nat) (maxT fuel : Nat)
    (pages : List PageRec) (out : List Dict)
    (hmt : maxT = pyOrDefault maxTicketsArg 500)
    (hrun : fetch_tickets_with_details baseUrl env startIso endIso company
      maxTicketsArg fuel = some (.ok (pages, out))) :
    out = ((pages.map (·.page)).flatten).map (enrichTicket baseUrl env) ∧
    (∀ t : Ticket, ∃ notes te,
      dictGet (enrichTicket baseUrl env t) "notes" = some (.list notes) ∧
      dictGet (enrichTicket baseUrl env t) "time_entries"
        = some (.list te) ∧
      ∀ k, k ≠ "notes" → k ≠ "time_entries" →
        dictGet (enrichTicket baseUrl env t) k = dictGet t.toDict k) ∧
    ((∀ c page,
        env.tickets (ticketsPayload maxT startIso endIso company c)
          = .ok page → ∀ t ∈ page, c < t.id) →
     (∀ c page,
        env.tickets (ticketsPayload maxT startIso endIso company c)
          = .ok page → (page.map (·.id)).Pairwise (· < ·)) →
     (((pages.map (·.page)).flatten).map (·.id)).Pairwise (· < ·)) := by
  subst hmt
  unfold fetch_tickets_with_details at hrun
  obtain ⟨newPages, hpages, hout, hchain⟩ :=
    fetchLoop_sound baseUrl env startIso endIso company _ fuel 0 [] []
      pages out hrun
  simp only [List.nil_append] at hpages
  subst hpages
  refine ⟨?_, ?_, ?_⟩
  · rw [hout]
    simp only [List.nil_append, List.map_flatten, List.map_map]
    rfl
  · intro t
    unfold enrichTicket fetch_ticket_details_limited
    cases hint : (env.detail t.id).interrupt with
    | none =>
      exact ⟨_, _, (mergeDetails_keys t _ _).1,
        (mergeDetails_keys t _ _).2.1, (mergeDetails_keys t _ _).2.2⟩
    | some n =>
      exact ⟨[], [], (mergeDetails_keys t [] []).1,
        (mergeDetails_keys t [] []).2.1, (mergeDetails_keys t [] []).2.2⟩
  · intro HFilter HSorted
    obtain ⟨hA, hB, hC⟩ :=
      pagesChain_strong env startIso endIso company _ HFilter HSorted
        _ 0 hchain
    rw [List.pairwise_map, List.pairwise_flatten]
    constructor
    · intro l hl
      obtain ⟨pr, hpr, rfl⟩ := List.mem_map.mp hl
      have hE := pagesChain_mem env startIso endIso company _ _ 0 hchain
        pr hpr
      have := HSorted pr.cursorBefore pr.page hE
      exact List.pairwise_map.mp this
    · rw [List.pairwise_map]
      exact hC

/-- Witness for C9 on the concrete healthy run: the output is the enriched
concatenation of the two pages, and its ids strictly increase. -/
theorem c9_output_is_ordered_concat_witness :
    [enrichTicket "b" witEnv (witTicket 1),
     enrichTicket "b" witEnv (witTicket 2),
     enrichTicket "b" witEnv (witTicket 3)] =
      (([(⟨0, [witTicket 1, witTicket 2], 2⟩ : PageRec),
         ⟨2, [witTicket 3], 3⟩].map (·.page)).flatten).map
        (enrichTicket "b" witEnv) ∧
    ((([(⟨0, [witTicket 1, witTicket 2], 2⟩ : PageRec),
        ⟨2, [witTicket 3], 3⟩].map (·.page)).flatten).map (·.id)).Pairwise
      (· < ·) :=
  let h := c9_output_is_ordered_concat "b" witEnv "s" "e" none (some 2) 2 3
    [⟨0, [witTicket 1, witTicket 2], 2⟩, ⟨2, [witTicket 3], 3⟩]
    [enrichTicket "b" witEnv (witTicket 1),
     enrichTicket "b" witEnv (witTicket 2),
     enrichTicket "b" witEnv (witTicket 3)] rfl rfl
  ⟨h.1, h.2.2 witEnv_honest_filter witEnv_sorted⟩

/-- C2: a ticket whose detail enrichment raises an unexpected exception is
still included in the run's output, with `notes = []` and
`time_entries = []`, instead of aborting the batch. -/
theorem c2_interrupted_ticket_included (baseUrl : String) (env : RunEnv)
    (startIso endIso : String) (company : Option Int)
    (maxTicketsArg : Option Nat) (fuel n : Nat)
    (pages : List PageRec) (out : List Dict) (pr : PageRec) (t : Ticket)
    (hrun : fetch_tickets_with_details baseUrl env startIso endIso company
      maxTicketsArg fuel = some (.ok (pages, out)))
    (hpr : pr ∈ pages) (ht : t ∈ pr.page)
    (hint : (env.detail t.id).interrupt = some n) :
    enrichTicket baseUrl env t ∈ out ∧
    dictGet (enrichTicket baseUrl env t) "notes" = some (.list []) ∧
    dictGet (enrichTicket baseUrl env t) "time_entries"
      = some (.list []) := by
  unfold fetch_tickets_with_details at hrun
  obtain ⟨newPages, hpages, hout, hchain⟩ :=
    fetchLoop_sound baseUrl env startIso endIso company _ fuel 0 [] []
      pages out hrun
  simp only [List.nil_append] at hpages
  subst hpages
  have henr : enrichTicket baseUrl env t = mergeDetails t [] [] := by
    simp only [enrichTicket, fetch_ticket_details_limited, hint]
  refine ⟨?_, ?_, ?_⟩
  · rw [hout]
    simp only [List.nil_append, List.mem_flatten]
    exact ⟨pr.page.map (enrichTicket baseUrl env),
      List.mem_map_of_mem _ hpr, List.mem_map_of_mem _ ht⟩
  · rw [henr]
    exact (mergeDetails_keys t [] []).1
  · rw [henr]
    exact (mergeDetails_keys t [] []).2.1

/-- Witness for C2: a one-page run whose single ticket's detail fetch is
interrupted still returns that ticket, degraded to empty collections. -/
theorem c2_interrupted_ticket_included_witness :
    enrichTicket "b" witEnvInt (witTicket 1)
      ∈ [enrichTicket "b" witEnvInt (witTicket 1)] ∧
    dictGet (enrichTicket "b" witEnvInt (witTicket 1)) "notes"
      = some (.list []) ∧
    dictGet (enrichTicket "b" witEnvInt (witTicket 1)) "time_entries"
      = some (.list []) :=
  c2_interrupted_ticket_included "b" witEnvInt "s" "e" none (some 2) 3 0
    [⟨0, [witTicket 1], 1⟩] [enrichTicket "b" witEnvInt (witTicket 1)]
    ⟨0, [witTicket 1], 1⟩ (witTicket 1) rfl (by simp) (by simp) rfl

/-- C3: every detail fetch acquires one semaphore slot before issuing any
child-entity request and releases it on every exit path — its event trace
is `acquire`-first and `release`-last with no other semaphore traffic in
between, on the normal and the exceptional path alike — and in every
`asyncio` interleaving of the spawned detail fetches gated by
`Semaphore N`, the number of fetches currently past slot acquisition
(`holders`) never exceeds `N`. -/
theorem c3_semaphore_bound (baseUrl : String) (N : Nat)
    (inputs : List (TicketEnv × Ticket)) :
    (∀ p ∈ inputs, ∃ mid,
      (fetch_ticket_details_limited baseUrl p.1 p.2).1
        = DEv.acquire :: (mid ++ [DEv.release]) ∧
      ∀ e ∈ mid, e ≠ DEv.acquire ∧ e ≠ DEv.release) ∧
    (∀ s, Relation.ReflTransGen (SemStep N)
        ⟨0, inputs.map
          (fun p => (fetch_ticket_details_limited baseUrl p.1 p.2).1)⟩ s →
      s.holders ≤ N) := by
  constructor
  · intro p _
    exact detail_trace_bracketed baseUrl p.1 p.2
  · intro s hreach
    exact reachable_holders_le hreach (Nat.zero_le N)

/-- Witness for C3: one concrete detail fetch under limit 1; its trace is
bracketed and every reachable interleaving state holds at most one slot. -/
theorem c3_semaphore_bound_witness :
    (∃ mid, (fetch_ticket_details_limited "b" witDetailOk (witTicket 1)).1
        = DEv.acquire :: (mid ++ [DEv.release]) ∧
      ∀ e ∈ mid, e ≠ DEv.acquire ∧ e ≠ DEv.release) ∧
    SemState.holders
      ⟨0, [(witDetailOk, witTicket 1)].map
        (fun p => (fetch_ticket_details_limited "b" p.1 p.2).1)⟩ ≤ 1 :=
  ⟨(c3_semaphore_bound "b" 1 [(witDetailOk, witTicket 1)]).1
      (witDetailOk, witTicket 1) (by simp),
   (c3_semaphore_bound "b" 1 [(witDetailOk, witTicket 1)]).2 _
      Relation.ReflTransGen.refl⟩

/-- C4: when the upstream answers a child-entity query with HTTP 429 on the
first `k < 3` attempts and then succeeds, `fetch_with_retry` returns the
parsed items of the successful response, and the backoff slept before
retry attempt `a` is `1.5 * 2 ^ a` seconds — a strictly increasing
sequence. -/
theorem c4_retry_backoff (respond : Nat → HttpResp) (k : Nat)
    (items : List JVal) (hk : k < 3)
    (h429 : ∀ a, a < k → respond a = .httpStatus 429)
    (hok : respond k = .ok items) :
    (fetch_with_retry respond 3).2 = items ∧
    sleepsOf (fetch_with_retry respond 3).1 =
      (List.range k).map (fun a => 2 ^ a * (3 / 2 : ℚ)) ∧
    (sleepsOf (fetch_with_retry respond 3).1).Pairwise (· < ·) := by
  interval_cases k
  · refine ⟨?_, ?_, ?_⟩ <;>
      simp [fetch_with_retry, fetchWithRetryGo, hok, sleepsOf]
  · have h0 := h429 0 (by norm_num)
    refine ⟨?_, ?_, ?_⟩
    · simp [fetch_with_retry, fetchWithRetryGo, h0, hok, sleepsOf]
    · simp [fetch_with_retry, fetchWithRetryGo, h0, hok, sleepsOf,
        List.range_succ]
      try norm_num
    · simp [fetch_with_retry, fetchWithRetryGo, h0, hok, sleepsOf]
  · have h0 := h429 0 (by norm_num)
    have h1 := h429 1 (by norm_num)
    refine ⟨?_, ?_, ?_⟩
    · simp [fetch_with_retry, fetchWithRetryGo, h0, h1, hok, sleepsOf]
    · simp [fetch_with_retry, fetchWithRetryGo, h0, h1, hok, sleepsOf,
        List.range_succ]
      try norm_num
    · simp [fetch_with_retry, fetchWithRetryGo, h0, h1, hok, sleepsOf,
        List.pairwise_cons]
      try norm_num

/-- Witness for C4: one 429 then success; the call returns the parsed items
and slept exactly the 1.5-second base backoff. -/
theorem c4_retry_backoff_witness :
    (fetch_with_retry
      (fun a => if a = 0 then .httpStatus 429 else .ok [.num 7]) 3).2
      = [.num 7] ∧
    sleepsOf (fetch_with_retry
      (fun a => if a = 0 then .httpStatus 429 else .ok [.num 7]) 3).1
      = (List.range 1).map (fun a => 2 ^ a * (3 / 2 : ℚ)) ∧
    (sleepsOf (fetch_with_retry
      (fun a => if a = 0 then .httpStatus 429 else .ok [.num 7]) 3).1).Pairwise
      (· < ·) :=
  c4_retry_backoff (fun a => if a = 0 then .httpStatus 429 else .ok [.num 7])
    1 [.num 7] (by norm_num)
    (by intro a ha; interval_cases a; rfl) rfl

/-- C6: when the upstream answers HTTP 429 on all three attempts,
`fetch_with_retry` returns the empty list (the embedding is a total
function: no exception reaches the caller), having issued exactly the three
attempts. -/
theorem c6_retry_exhausted (respond : Nat → HttpResp)
    (h : ∀ a, a < 3 → respond a = .httpStatus 429) :
    (fetch_with_retry respond 3).2 = [] ∧
    requestsOf (fetch_with_retry respond 3).1 = [0, 1, 2] := by
  have h0 := h 0 (by norm_num)
  have h1 := h 1 (by norm_num)
  have h2 := h 2 (by norm_num)
  refine ⟨?_, ?_⟩ <;>
    simp [fetch_with_retry, fetchWithRetryGo, h0, h1, h2, requestsOf]

/-- Witness for C6: the constant-429 upstream yields an empty collection
after the three attempts. -/
theorem c6_retry_exhausted_witness :
    (fetch_with_retry (fun _ => .httpStatus 429) 3).2 = [] ∧
    requestsOf (fetch_with_retry (fun _ => .httpStatus 429) 3).1
      = [0, 1, 2] :=
  c6_retry_exhausted (fun _ => .httpStatus 429) (fun _ _ => rfl)

/-- C7: a first response that is an HTTP error other than 429, or a network
(or any other) failure, makes `fetch_with_retry` return the empty list at
once: its whole trace is the single first request — no retry, no backoff
sleep — and no exception reaches the caller. -/
theorem c7_no_retry_on_other_errors (respond : Nat → HttpResp)
    (h : (∃ c, c ≠ 429 ∧ respond 0 = .httpStatus c) ∨
      ∃ m, respond 0 = .otherErr m) :
    (fetch_with_retry respond 3).1 = [.request 0] ∧
    (fetch_with_retry respond 3).2 = [] := by
  rcases h with ⟨c, hc, h0⟩ | ⟨m, h0⟩
  · constructor <;> simp [fetch_with_retry, fetchWithRetryGo, h0, hc]
  · constructor <;> simp [fetch_with_retry, fetchWithRetryGo, h0]

/-- Witness for C7: an HTTP 500 answer is not retried and degrades to an
empty collection. -/
theorem c7_no_retry_on_other_errors_witness :
    (fetch_with_retry (fun _ => .httpStatus 500) 3).1 = [.request 0] ∧
    (fetch_with_retry (fun _ => .httpStatus 500) 3).2 = [] :=
  c7_no_retry_on_other_errors (fun _ => .httpStatus 500)
    (Or.inl ⟨500, by norm_num, rfl⟩)

theorem queryLog_cons_acquire (evs : List DEv) :
    queryLog (DEv.acquire :: evs) = queryLog evs := by
  simp [queryLog]

theorem queryLog_cons_sleep (d : ℚ) (evs : List DEv) :
    queryLog (DEv.sleepEv d :: evs) = queryLog evs := by
  simp [queryLog]

theorem queryLog_append (l1 l2 : List DEv) :
    queryLog (l1 ++ l2) = queryLog l1 ++ queryLog l2 := by
  simp [queryLog, List.filterMap_append]

theorem queryLog_release : queryLog [DEv.release] = [] := rfl

/-- C10: with no injected exception, a detail fetch issues exactly one
notes query and one time-entries query — every POST in its trace carries
one of the two fixed payloads (`MaxRecords` 500, a single equality filter
on the ticket id, independent of page size or any other argument), the
requests are 1–3 POSTs of the notes query followed by 1–3 POSTs of the
time-entries query (the bound is the retry cap; there is no pagination of
child collections) — and when the upstream honours `MaxRecords`, the
returned record holds at most 500 notes and at most 500 time entries. -/
theorem c10_child_query_shape (baseUrl : String) (env : TicketEnv)
    (t : Ticket) (hnoint : env.interrupt = none) :
    (∃ k m, 1 ≤ k ∧ k ≤ 3 ∧ 1 ≤ m ∧ m ≤ 3 ∧
      queryLog (fetch_ticket_details_limited baseUrl env t).1 =
        List.replicate k (notesUrl baseUrl, childPayload t.id) ++
        List.replicate m (teUrl baseUrl, childPayload t.id)) ∧
    (childPayload t.id).maxRecords = 500 ∧
    (childPayload t.id).filter = [⟨"ticketID", "eq", .num t.id⟩] ∧
    ((∀ a items, env.notesResp a = .ok items → items.length ≤ 500) →
      ∃ notes,
        dictGet (fetch_ticket_details_limited baseUrl env t).2 "notes"
          = some (.list notes) ∧ notes.length ≤ 500) ∧
    ((∀ a items, env.teResp a = .ok items → items.length ≤ 500) →
      ∃ te,
        dictGet (fetch_ticket_details_limited baseUrl env t).2 "time_entries"
          = some (.list te) ∧ te.length ≤ 500) := by
  have htrace : (fetch_ticket_details_limited baseUrl env t).1 =
      DEv.acquire :: (detailBodyEvents baseUrl t.id env ++ [DEv.release]) := by
    simp [fetch_ticket_details_limited, hnoint]
  have hres : (fetch_ticket_details_limited baseUrl env t).2 =
      mergeDetails t (fetch_with_retry env.notesResp 3).2
        (fetch_with_retry env.teResp 3).2 := by
    simp [fetch_ticket_details_limited, hnoint]
  have hnlen := requestsOf_go_len env.notesResp 3 3 0 (by norm_num)
  have htlen := requestsOf_go_len env.teResp 3 3 0 (by norm_num)
  refine ⟨?_, rfl, rfl, ?_, ?_⟩
  · refine ⟨(requestsOf (fetch_with_retry env.notesResp 3).1).length,
      (requestsOf (fetch_with_retry env.teResp 3).1).length,
      hnlen.1, hnlen.2, htlen.1, htlen.2, ?_⟩
    rw [htrace, queryLog_cons_acquire, queryLog_append, queryLog_release,
      List.append_nil]
    unfold detailBodyEvents
    rw [show (DEv.sleepEv (3 / 10) ::
        (fetch_with_retry env.notesResp 3).1.map
          (tagRetryEv (notesUrl baseUrl) (childPayload t.id)) ++
        DEv.sleepEv (1 / 5) ::
        (fetch_with_retry env.teResp 3).1.map
          (tagRetryEv (teUrl baseUrl) (childPayload t.id))) =
      (DEv.sleepEv (3 / 10) ::
        (fetch_with_retry env.notesResp 3).1.map
          (tagRetryEv (notesUrl baseUrl) (childPayload t.id))) ++
      (DEv.sleepEv (1 / 5) ::
        (fetch_with_retry env.teResp 3).1.map
          (tagRetryEv (teUrl baseUrl) (childPayload t.id))) from rfl]
    rw [queryLog_append, queryLog_cons_sleep, queryLog_cons_sleep,
      queryLog_map_tag, queryLog_map_tag]
  · intro hb
    refine ⟨(fetch_with_retry env.notesResp 3).2, ?_, ?_⟩
    · rw [hres]
      exact (mergeDetails_keys t _ _).1
    · rcases go_result_cases env.notesResp 3 3 0 with hnil | ⟨b, its, hr, heq⟩
      · rw [show (fetch_with_retry env.notesResp 3).2 =
          (fetchWithRetryGo env.notesResp 3 0 3).2 from rfl, hnil]
        norm_num
      · rw [show (fetch_with_retry env.notesResp 3).2 =
          (fetchWithRetryGo env.notesResp 3 0 3).2 from rfl, heq]
        exact hb b its hr
  · intro hb
    refine ⟨(fetch_with_retry env.teResp 3).2, ?_, ?_⟩
    · rw [hres]
      exact (mergeDetails_keys t _ _).2.1
    · rcases go_result_cases env.teResp 3 3 0 with hnil | ⟨b, its, hr, heq⟩
      · rw [show (fetch_with_retry env.teResp 3).2 =
          (fetchWithRetryGo env.teResp 3 0 3).2 from rfl, hnil]
        norm_num
      · rw [show (fetch_with_retry env.teResp 3).2 =
          (fetchWithRetryGo env.teResp 3 0 3).2 from rfl, heq]
        exact hb b its hr

/-- Witness for C10 on a concrete healthy detail fetch. -/
theorem c10_child_query_shape_witness :
    (∃ k m, 1 ≤ k ∧ k ≤ 3 ∧ 1 ≤ m ∧ m ≤ 3 ∧
      queryLog
          (fetch_ticket_details_limited "b" witDetailOk (witTicket 1)).1 =
        List.replicate k (notesUrl "b", childPayload (witTicket 1).id) ++
        List.replicate m (teUrl "b", childPayload (witTicket 1).id)) ∧
    (childPayload (witTicket 1).id).maxRecords = 500 ∧
    (childPayload (witTicket 1).id).filter
      = [⟨"ticketID", "eq", .num (witTicket 1).id⟩] ∧
    ((∀ a items, witDetailOk.notesResp a = .ok items →
        items.length ≤ 500) →
      ∃ notes,
        dictGet (fetch_ticket_details_limited "b" witDetailOk
          (witTicket 1)).2 "notes" = some (.list notes) ∧
        notes.length ≤ 500) ∧
    ((∀ a items, witDetailOk.teResp a = .ok items → items.length ≤ 500) →
      ∃ te,
        dictGet (fetch_ticket_details_limited "b" witDetailOk
          (witTicket 1)).2 "time_entries" = some (.list te) ∧
        te.length ≤ 500) :=
  c10_child_query_shape "b" witDetailOk (witTicket 1) rfl
